import Mathlib

/-!
A shallow embedding, in Lean 4, of the quiz-generation core of the
`smarttoolformcqs` repository: transcript chunk planning and splitting
(`backend/utils/transcriptUtils.js`), per-chunk model-output normalization and
the fan-out/merge pipeline (`generateQuizFromChunk` / `generateQuiz` in
`backend/server.js`), and the transcript cache's access bookkeeping
(`backend/models/TranscriptCache.js`).

JavaScript strings are modelled as Lean `String`s (lengths count characters),
JS numbers that hold integers as `Int`/`Nat` with the JS rounding operators
made explicit (`Math.floor` division on integers is `Int.fdiv`, the JS `%`
remainder is `Int.tmod`, `Array.prototype.slice` end indices may be negative).
The external generative-model call and the JavaScript `JSON.parse` are
external collaborators; their joint outcome for one chunk is abstracted as the
`ModelResponse` sum below, which records exactly the distinctions the code's
control flow makes.
-/

set_option autoImplicit false

namespace MCQ

/-- The characters matched by the JavaScript regex class `\s` (and trimmed by
`String.prototype.trim`): ASCII whitespace, NBSP, the Unicode space
separators, line separators and the BOM. -/
def isJsWhitespace (c : Char) : Bool :=
  c = ' ' || c = '\t' || c = '\n' || c = '\r' || c = '\x0b' || c = '\x0c' ||
  c.toNat = 0xa0 || c.toNat = 0x1680 ||
  (0x2000 ≤ c.toNat && c.toNat ≤ 0x200a) ||
  c.toNat = 0x2028 || c.toNat = 0x2029 || c.toNat = 0x202f ||
  c.toNat = 0x205f || c.toNat = 0x3000 || c.toNat = 0xfeff

/-- JavaScript `String.prototype.trim`: remove leading and trailing
whitespace. -/
def jsTrim (s : String) : String :=
  (((s.data.dropWhile isJsWhitespace).reverse.dropWhile isJsWhitespace).reverse).asString

/-- JavaScript `a.slice(0, stop)` on arrays: a negative `stop` counts from the
end (clamped at 0), a `stop` past the end is clamped to the length. -/
def jsSliceTo {α : Type} (l : List α) (stop : Int) : List α :=
  if stop < 0 then l.take (l.length - stop.natAbs) else l.take stop.toNat

/-- JavaScript truthiness of an optional string: `undefined` and `""` are
falsy. -/
def truthyStr : Option String → Bool
  | none => false
  | some s => s ≠ ""

/-- JavaScript `a || b` on two optional strings: `b` when `a` is falsy. -/
def jsOrOpt (a b : Option String) : Option String :=
  if truthyStr a then a else b

/-- JavaScript `a || dflt` where `dflt` is a non-empty string literal. -/
def jsOrDefault (a : Option String) (dflt : String) : String :=
  if truthyStr a then a.getD dflt else dflt

/-- One step of JavaScript `transcript.split(/\s+/)`: state is (finished
tokens in reverse, current token's characters in reverse, inside-a-
whitespace-run flag). -/
def jsSplitWsStep : List String × List Char × Bool → Char → List String × List Char × Bool
  | (acc, cur, inWs), c =>
    if isJsWhitespace c then
      if inWs then (acc, cur, true)
      else (cur.reverse.asString :: acc, [], true)
    else
      (acc, c :: cur, false)

/-- JavaScript `transcript.split(/\s+/)`: split at maximal whitespace runs;
a leading (resp. trailing) run contributes a leading (resp. trailing) empty
string, and splitting the empty string yields `[""]`. -/
def jsSplitWs (s : String) : List String :=
  let st := s.data.foldl jsSplitWsStep ([], [], false)
  (st.2.1.reverse.asString :: st.1).reverse

/-- The canonical question shape (post-normalization), as produced by
`generateQuizFromChunk` and consumed by `mergeChunkQuizzes`:
`questionId`, `question`, `options`, `correct_answer`, `topic`.
`correct_answer` is optional because `q.correct_answer || q.correctAnswer`
evaluates to `undefined` when both raw fields are falsy. -/
structure Question where
  questionId : Nat
  question : String
  options : List String
  correct_answer : Option String
  topic : String
deriving Repr, DecidableEq

/-- A question with its `questionId` blanked out: two questions are equal
under `eraseId` exactly when all fields other than the identifier agree. -/
def eraseId (q : Question) : Question :=
  { q with questionId := 0 }

/-! ## backend/utils/transcriptUtils.js -/

/-- Embeds `splitTranscriptIntoChunks` (transcriptUtils.js:9-34).
`!transcript || transcript.length === 0` holds for a JS string exactly when it
is empty; `Math.ceil(words.length / numChunks)` on a zero `numChunks` yields a
loop that never runs, matching `List.range 0 = []` here. -/
def splitTranscriptIntoChunks (transcript : String) (numChunks : Nat) : List String :=
  if transcript = "" then []
  else if transcript.length < 5000 then [transcript]
  else
    let words := jsSplitWs transcript
    let wordsPerChunk := (words.length + numChunks - 1) / numChunks
    ((List.range numChunks).map (fun i =>
        let start := i * wordsPerChunk
        let stop := min (start + wordsPerChunk) words.length
        String.intercalate " " ((words.drop start).take (stop - start)))).filter
      (fun chunk => (jsTrim chunk).length > 0)

/-- Embeds `calculateOptimalChunks` (transcriptUtils.js:41-48). -/
def calculateOptimalChunks (transcriptLength : Nat) : Nat :=
  if transcriptLength < 5000 then 1
  else if transcriptLength < 20000 then 2
  else if transcriptLength < 40000 then 3
  else if transcriptLength < 60000 then 4
  else if transcriptLength < 80000 then 5
  else 6

/-- Embeds `distributeQuestionsAcrossChunks` (transcriptUtils.js:56-67).
`Math.floor(totalQuestions / numChunks)` on integers is floor division
(`Int.fdiv`); the JS `%` is the truncated remainder (`Int.tmod`). -/
def distributeQuestionsAcrossChunks (totalQuestions : Int) (numChunks : Nat) : List Int :=
  let baseQuestions := Int.fdiv totalQuestions numChunks
  let remainder := Int.tmod totalQuestions numChunks
  (List.range numChunks).map (fun i : Nat =>
    baseQuestions + (if (i : Int) < remainder then 1 else 0))

/-- The dedup key used by `mergeChunkQuizzes`:
`question.question.toLowerCase().trim()`. Lowercasing is modelled
per-character via `Char.toLower`. -/
def normalizeQText (s : String) : String :=
  jsTrim ((s.data.map Char.toLower).asString)

/-- The inner loop of `mergeChunkQuizzes` (transcriptUtils.js:83-99) over one
chunk's question list: threads the seen-set and the next sequential id,
returning the questions accepted from this chunk together with the updated
state. -/
def mergeInner (seen : List String) (nextId : Nat) :
    List Question → List Question × List String × Nat
  | [] => ([], seen, nextId)
  | question :: rest =>
    let normalizedQuestion := normalizeQText question.question
    if normalizedQuestion ∈ seen then
      mergeInner seen nextId rest
    else
      let r := mergeInner (normalizedQuestion :: seen) (nextId + 1) rest
      ({ question with questionId := nextId } :: r.1, r.2)

/-- The outer loop of `mergeChunkQuizzes` (transcriptUtils.js:80-100) over the
chunk lists. The source's `if (!Array.isArray(chunkQuiz)) continue` guard is
identically false here since the input is typed as a list of lists. -/
def mergeOuter (seen : List String) (nextId : Nat) :
    List (List Question) → List Question
  | [] => []
  | chunkQuiz :: more =>
    let r := mergeInner seen nextId chunkQuiz
    r.1 ++ mergeOuter r.2.1 r.2.2 more

/-- Embeds `mergeChunkQuizzes` (transcriptUtils.js:74-103): concatenate the per-chunk
lists, drop any question whose normalized text was already seen, and assign
fresh sequential ids starting at 1. -/
def mergeChunkQuizzes (chunkQuizzes : List (List Question)) : List Question :=
  mergeOuter [] 1 chunkQuizzes

/-! ## backend/server.js: generateQuizFromChunk and generateQuiz -/

/-- A raw question object as found in the model's JSON output
(server.js:346-357, 375-391): the normalizer reads `question`, `options`,
`correct_answer`/`correctAnswer` and `topic`; any other raw fields (such as
the chunk-local `questionId`) are ignored by the `map` and so are not
modelled. -/
structure RawQuestion where
  question : String
  options : List String
  correct_answer : Option String
  correctAnswer : Option String
  topic : Option String
deriving Repr, DecidableEq

/-- Tests that `c` is one of the letters `A`-`D`, case-insensitively: the JS regex class
`[A-D]` under the `i` flag. -/
def isLabelLetter (c : Char) : Bool :=
  c = 'A' || c = 'B' || c = 'C' || c = 'D' || c = 'a' || c = 'b' || c = 'c' || c = 'd'

/-- The JS regex class `[\)\.:\-\s]`: the option-label separators `)`, `.`,
`:`, `-` and whitespace. -/
def isLabelSep (c : Char) : Bool :=
  c = ')' || c = '.' || c = ':' || c = '-' || isJsWhitespace c

/-- Embeds `opt.replace(/^[A-D][\)\.:\-\s]+/i, '')` (server.js:381): when the string
starts with a label letter followed by at least one separator character, drop
the letter and the maximal separator run; otherwise leave it unchanged. -/
def stripLabel (s : String) : String :=
  match s.data with
  | c :: c2 :: rest =>
    if isLabelLetter c && isLabelSep c2 then
      ((c2 :: rest).dropWhile isLabelSep).asString
    else s
  | _ => s

/-- The option cleaner of the normalizer (server.js:380-382):
`opt.replace(/^[A-D][\)\.:\-\s]+/i, '').trim()`. -/
def cleanOption (opt : String) : String :=
  jsTrim (stripLabel opt)

/-- One element of the normalizing `map` (server.js:375-391): fold the two
correct-answer spellings, clean each option, default the topic, and set the
chunk-local `questionId` to the 1-based index. -/
def normalizeRawQuestion (idx : Nat) (q : RawQuestion) : Question :=
  { questionId := idx + 1
  , question := q.question
  , options := q.options.map cleanOption
  , correct_answer := jsOrOpt q.correct_answer q.correctAnswer
  , topic := jsOrDefault q.topic "General" }

/-- The joint outcome of the external `model.generateContent(...)` call and
the two-stage parse of its text (server.js:359-372): `JSON.parse(text)`
first, then on failure `text.match(/\[.*\]/s)` followed by `JSON.parse` of
the match. The generative model and the JS JSON parser are external
collaborators, so this sum records only the distinctions the code's control
flow makes:
* `throwsError` — the external call itself threw, or the fallback
  `JSON.parse(jsonMatch[0])` threw, or the parsed value was not an array of
  question objects (so `quizData.map` threw); all reach the outer `catch`;
* `unparseable` — the strict parse threw and no bracketed substring was
  found, leaving `quizData = []`;
* `parsedStrict qs` — `JSON.parse(text)` yielded the array `qs`;
* `parsedFallback qs` — the strict parse threw and the bracketed-substring
  parse yielded the array `qs`. -/
inductive ModelResponse where
  | throwsError
  | unparseable
  | parsedStrict (qs : List RawQuestion)
  | parsedFallback (qs : List RawQuestion)
deriving Repr, DecidableEq

/-- The number of raw questions the two-stage parse produced. -/
def parsedCount : ModelResponse → Nat
  | .throwsError => 0
  | .unparseable => 0
  | .parsedStrict qs => qs.length
  | .parsedFallback qs => qs.length

/-- Embeds `generateQuizFromChunk` (server.js:309-400), as a function of the
abstracted external outcome `resp`. `chunkText`, `numQuestions`, `difficulty`
and `videoTitle` only enter the prompt handed to the external call, and
`chunkIndex` only enters the prompt and the log lines; they are kept as
parameters to mirror the source signature. The outer `catch` returns `[]`. -/
def generateQuizFromChunk (resp : ModelResponse) (chunkText : String)
    (numQuestions : Int) (difficulty : String) (videoTitle : String)
    (chunkIndex : Nat) : List Question :=
  match resp with
  | .throwsError => []
  | .unparseable => []
  | .parsedStrict qs => qs.enum.map (fun p => normalizeRawQuestion p.1 p.2)
  | .parsedFallback qs => qs.enum.map (fun p => normalizeRawQuestion p.1 p.2)

/-- Embeds the `chunkPromises`/`chunkQuizzes` stage of `generateQuiz`
(server.js:433-437): one `generateQuizFromChunk` call per chunk, indexed by
chunk position; `respOf i` is the external outcome observed by chunk `i`.
`Promise.all` preserves the chunk-index order of the results. -/
def chunkQuizzesOf (respOf : Nat → ModelResponse) (chunks : List String)
    (questionsPerChunk : List Int) (difficulty videoTitle : String) :
    List (List Question) :=
  chunks.enum.map (fun p =>
    generateQuizFromChunk (respOf p.1) p.2 (questionsPerChunk.getD p.1 0)
      difficulty videoTitle p.1)

/-- The merge-and-trim tail of `generateQuiz`'s multi-chunk path
(server.js:442-450): merge, then `mergedQuiz.slice(0, numQuestions)` when the
merged length exceeds the requested count. -/
def mergeAndTrim (chunkQuizzes : List (List Question)) (numQuestions : Int) :
    List Question :=
  let mergedQuiz := mergeChunkQuizzes chunkQuizzes
  if (mergedQuiz.length : Int) > numQuestions then jsSliceTo mergedQuiz numQuestions
  else mergedQuiz

/-- Embeds `generateQuiz` (server.js:403-451) as a function of the transcript text,
the requested question count and the per-chunk external outcomes. The
single-chunk path returns the chunk generator's result directly; the
multi-chunk path splits, distributes quotas, fans out, merges and trims. -/
def generateQuiz (respOf : Nat → ModelResponse) (transcript : String)
    (numQuestions : Int) (difficulty : String) (title : String) : List Question :=
  let transcriptLength := transcript.length
  let optimalChunks := calculateOptimalChunks transcriptLength
  let useChunking := optimalChunks > 1
  if ¬ useChunking then
    generateQuizFromChunk (respOf 0) transcript numQuestions difficulty title 0
  else
    let chunks := splitTranscriptIntoChunks transcript optimalChunks
    let questionsPerChunk := distributeQuestionsAcrossChunks numQuestions chunks.length
    let chunkQuizzes := chunkQuizzesOf respOf chunks questionsPerChunk difficulty title
    mergeAndTrim chunkQuizzes numQuestions

/-! ## backend/models/TranscriptCache.js and the cache-hit path of
`getVideoInfo` (server.js:147-170) -/

/-- A document of the `TranscriptCache` collection
(TranscriptCache.js:4-37). Timestamps are abstract clock ticks (`Nat`). -/
structure TranscriptCacheEntry where
  videoId : String
  title : String
  description : String
  channelTitle : String
  duration : String
  durationMinutes : Nat
  transcript : String
  transcriptLength : Nat
  publishedAt : Nat
  cachedAt : Nat
  lastAccessed : Nat
  accessCount : Nat
deriving Repr, DecidableEq

/-- Embeds `transcriptCacheSchema.methods.updateAccess` (TranscriptCache.js:43-47):
`this.lastAccessed = new Date(); this.accessCount += 1; this.save()`. -/
def updateAccess (now : Nat) (e : TranscriptCacheEntry) : TranscriptCacheEntry :=
  { e with lastAccessed := now, accessCount := e.accessCount + 1 }

/-- The cache store, modelled as the list of documents in insertion order. -/
def CacheState : Type := List TranscriptCacheEntry

/-- Embeds `TranscriptCache.findOne` by `videoId` (server.js:151): the first
document whose `videoId` matches. -/
def cacheFindOne (cache : CacheState) (videoId : String) :
    Option TranscriptCacheEntry :=
  cache.find? (fun e => e.videoId == videoId)

/-- Replace the first list element satisfying `p` with `x` (the effect of
Mongoose's `save()` on a fetched document: the stored copy of that one
document is overwritten in place). -/
def replaceFirst {α : Type} (p : α → Bool) (x : α) : List α → List α
  | [] => []
  | a :: as => if p a then x :: as else a :: replaceFirst p x as

/-- The cache-consulting step of `getVideoInfo` (server.js:150-170): on a hit
the fetched document is mutated by `updateAccess` and saved, and the (now
updated) record is returned; on a miss nothing is returned and the store is
untouched. Returns (result, store after the lookup). -/
def cacheLookup (now : Nat) (cache : CacheState) (videoId : String) :
    Option TranscriptCacheEntry × CacheState :=
  match cacheFindOne cache videoId with
  | some cachedVideo =>
    let updated := updateAccess now cachedVideo
    (some updated, replaceFirst (fun e => e.videoId == videoId) updated cache)
  | none => (none, cache)

/-! ## Auxiliary definitions used only to state properties -/

/-- The dedup key of a question, as computed by `mergeChunkQuizzes`. -/
def qKey (q : Question) : String :=
  normalizeQText q.question

/-- Whether a string starts with the pattern the option cleaner's regex
matches: a label letter `A`-`D` followed by at least one separator
character. -/
def startsWithLabel (s : String) : Bool :=
  match s.data with
  | c :: c2 :: _ => isLabelLetter c && isLabelSep c2
  | _ => false

/-- A cache entry with its access bookkeeping blanked out: two entries are
equal under `eraseAccess` exactly when every field other than `lastAccessed`
and `accessCount` agrees. -/
def eraseAccess (e : TranscriptCacheEntry) : TranscriptCacheEntry :=
  { e with lastAccessed := 0, accessCount := 0 }

/-! ## General helper lemmas -/

theorem take_range' (n : Nat) : ∀ (s k : Nat),
    (List.range' s n).take k = List.range' s (min k n) := by
  induction n with
  | zero => intro s k; simp
  | succ n ih =>
    intro s k
    rw [List.range'_succ]
    cases k with
    | zero => simp
    | succ k =>
      rw [List.take_succ_cons, ih (s + 1) k]
      have hmin : min (k + 1) (n + 1) = min k n + 1 := by omega
      rw [hmin, List.range'_succ]

theorem sum_map_base_indicator (b r : Int) (h0 : 0 ≤ r) : ∀ (n : Nat),
    ((List.range n).map (fun i : Nat => b + if (i : Int) < r then (1 : Int) else 0)).sum
      = n * b + min r n := by
  intro n
  induction n with
  | zero => simpa using (min_eq_right h0).symm
  | succ n ih =>
    rw [List.range_succ, List.map_append, List.sum_append, ih]
    by_cases hc : (n : Int) < r
    · have h1 : min r (n : Int) = (n : Int) := min_eq_right (by omega)
      have h2 : min r ((n : Int) + 1) = (n : Int) + 1 := min_eq_right (by omega)
      simp only [List.map_cons, List.map_nil, List.sum_cons, List.sum_nil, if_pos hc]
      push_cast
      rw [h1, h2]
      ring
    · have h1 : min r (n : Int) = r := min_eq_left (by omega)
      have h2 : min r ((n : Int) + 1) = r := min_eq_left (by omega)
      simp only [List.map_cons, List.map_nil, List.sum_cons, List.sum_nil, if_neg hc]
      push_cast
      rw [h1, h2]
      ring

theorem dropWhile_head_false {α : Type} (p : α → Bool) :
    ∀ (l : List α) (d : α) (ds : List α), l.dropWhile p = d :: ds → p d = false := by
  intro l
  induction l with
  | nil => intro d ds h; simp [List.dropWhile] at h
  | cons a as ih =>
    intro d ds h
    by_cases ha : p a
    · rw [List.dropWhile_cons_of_pos ha] at h
      exact ih d ds h
    · rw [List.dropWhile_cons_of_neg ha] at h
      cases h
      simpa using ha

theorem distribute_mem_cases (total : Int) (numChunks : Nat)
    (hfd : Int.fdiv total numChunks = total / (numChunks : Int))
    (htm : Int.tmod total numChunks = total % (numChunks : Int)) :
    ∀ q ∈ distributeQuestionsAcrossChunks total numChunks,
      q = total / (numChunks : Int) ∨ q = total / (numChunks : Int) + 1 := by
  intro q hq
  simp only [distributeQuestionsAcrossChunks, hfd, htm] at hq
  obtain ⟨i, _, rfl⟩ := List.mem_map.mp hq
  by_cases h : (i : Int) < total % (numChunks : Int) <;> simp [h]

/-- Claim C3: For `requestedQuestionCount ≥ 0` and `chunkCount ≥ 1`,
`distributeQuestionsAcrossChunks` returns exactly `chunkCount` non-negative
quotas summing to the requested total, with no two quotas differing by more
than 1; the `i`-th quota is the floor quotient plus one extra exactly when
`i` is below the remainder (so the remainder goes to the first chunks, in
order), and a requested total of zero yields all-zero quotas. -/
theorem distributeQuestionsAcrossChunks_spec (total : Int) (numChunks : Nat)
    (hT : 0 ≤ total) (hC : 1 ≤ numChunks) :
    (distributeQuestionsAcrossChunks total numChunks).length = numChunks
    ∧ (∀ q ∈ distributeQuestionsAcrossChunks total numChunks, 0 ≤ q)
    ∧ (distributeQuestionsAcrossChunks total numChunks).sum = total
    ∧ (∀ q1 ∈ distributeQuestionsAcrossChunks total numChunks,
        ∀ q2 ∈ distributeQuestionsAcrossChunks total numChunks, q1 - q2 ≤ 1)
    ∧ (∀ i, i < numChunks →
        (distributeQuestionsAcrossChunks total numChunks).get? i
          = some (total / (numChunks : Int)
              + if (i : Int) < total % (numChunks : Int) then 1 else 0))
    ∧ (total = 0 → ∀ q ∈ distributeQuestionsAcrossChunks total numChunks, q = 0) := by
  have hb : (0 : Int) ≤ (numChunks : Int) := Int.natCast_nonneg numChunks
  have hpos : (0 : Int) < (numChunks : Int) := by exact_mod_cast hC
  have hfd : Int.fdiv total numChunks = total / (numChunks : Int) :=
    Int.fdiv_eq_ediv total hb
  have htm : Int.tmod total numChunks = total % (numChunks : Int) :=
    Int.tmod_eq_emod hT hb
  have hD : distributeQuestionsAcrossChunks total numChunks
      = (List.range numChunks).map (fun i : Nat =>
          total / (numChunks : Int)
            + if (i : Int) < total % (numChunks : Int) then 1 else 0) := by
    simp only [distributeQuestionsAcrossChunks, hfd, htm]
  have hmem := distribute_mem_cases total numChunks hfd htm
  have hdiv0 : 0 ≤ total / (numChunks : Int) := Int.ediv_nonneg hT hb
  refine ⟨?_, ?_, ?_, ?_, ?_, ?_⟩
  · rw [hD]; simp
  · intro q hq
    rcases hmem q hq with rfl | rfl <;> omega
  · rw [hD, sum_map_base_indicator _ _ (Int.emod_nonneg total (by omega))]
    have hlt : total % (numChunks : Int) < (numChunks : Int) :=
      Int.emod_lt_of_pos total hpos
    rw [min_eq_left (le_of_lt hlt)]
    exact Int.ediv_add_emod total (numChunks : Int)
  · intro q1 h1 q2 h2
    rcases hmem q1 h1 with rfl | rfl <;> rcases hmem q2 h2 with rfl | rfl <;> omega
  · intro i hi
    rw [hD, List.get?_eq_getElem?]
    simp [List.getElem?_map, List.getElem?_range hi]
  · intro h0 q hq
    rcases hmem q hq with rfl | rfl
    · simp [h0]
    · exfalso
      subst h0
      simp only [distributeQuestionsAcrossChunks, hfd, htm] at hq
      obtain ⟨i, _, hqe⟩ := List.mem_map.mp hq
      have : ¬ ((i : Int) < (0 : Int) % (numChunks : Int)) := by
        simp [Int.natCast_nonneg i]
      simp [Int.zero_ediv, this] at hqe

/-- Witness for `distributeQuestionsAcrossChunks_spec` at a requested total of
7 across 3 chunks (quotas `[3, 2, 2]`). -/
theorem distributeQuestionsAcrossChunks_spec_witness :
    (0 : Int) ≤ 7 ∧ (1 : Nat) ≤ 3 ∧
    ((distributeQuestionsAcrossChunks 7 3).length = 3
      ∧ (∀ q ∈ distributeQuestionsAcrossChunks 7 3, 0 ≤ q)
      ∧ (distributeQuestionsAcrossChunks 7 3).sum = 7
      ∧ (∀ q1 ∈ distributeQuestionsAcrossChunks 7 3,
          ∀ q2 ∈ distributeQuestionsAcrossChunks 7 3, q1 - q2 ≤ 1)
      ∧ (∀ i, i < 3 →
          (distributeQuestionsAcrossChunks 7 3).get? i
            = some ((7 : Int) / (3 : Int)
                + if (i : Int) < (7 : Int) % (3 : Int) then 1 else 0))
      ∧ ((7 : Int) = 0 → ∀ q ∈ distributeQuestionsAcrossChunks 7 3, q = 0)) :=
  ⟨by decide, by decide, distributeQuestionsAcrossChunks_spec 7 3 (by decide) (by decide)⟩

/-- Claim C7 counterexample: The empty transcript has length `0 < 5000`, yet
`splitTranscriptIntoChunks` returns the empty list, not the single-element
list containing the transcript: the short-transcript guarantee fails on the
empty string, which hits the `!transcript` guard first. -/
theorem splitTranscriptIntoChunks_empty_cex :
    splitTranscriptIntoChunks "" 3 = [] ∧ ("" : String).length < 5000
      ∧ splitTranscriptIntoChunks "" 3 ≠ [""] := by
  refine ⟨rfl, by decide, ?_⟩
  decide

/-- Claim C7, amended: For every *non-empty* transcript shorter than the
5,000-character splitting threshold and every requested chunk count,
`splitTranscriptIntoChunks` returns exactly the single-element list
containing the original transcript unmodified. -/
theorem splitTranscriptIntoChunks_short (transcript : String) (numChunks : Nat)
    (hne : transcript ≠ "") (hlen : transcript.length < 5000) :
    splitTranscriptIntoChunks transcript numChunks = [transcript] := by
  rw [splitTranscriptIntoChunks, if_neg hne, if_pos hlen]

/-- Witness for `splitTranscriptIntoChunks_short` on the transcript
`"hello"` with 9 requested chunks. -/
theorem splitTranscriptIntoChunks_short_witness :
    ("hello" : String) ≠ "" ∧ ("hello" : String).length < 5000
      ∧ splitTranscriptIntoChunks "hello" 9 = ["hello"] :=
  ⟨by decide, by decide,
    splitTranscriptIntoChunks_short "hello" 9 (by decide) (by decide)⟩

/-- Claim C8 counterexample: The option string `"A cat"` contains none of the
punctuation characters `)`, `.`, `:`, `-` after the letter, and it is already
whitespace-trimmed, so under the claim it would be stored unchanged; the
cleaner nevertheless strips the leading `"A "` because the regex class
`[\)\.:\-\s]` also matches plain whitespace. -/
theorem cleanOption_bare_letter_cex :
    cleanOption "A cat" = "cat" ∧ jsTrim "A cat" = "A cat"
      ∧ ("cat" : String) ≠ "A cat" := by
  refine ⟨rfl, rfl, ?_⟩
  decide

/-- Claim C8, amended: Option normalization strips a leading label letter
`A`-`D` (case-insensitive) followed by one or more characters each of which
is `)`, `.`, `:`, `-` *or whitespace* (so a letter followed by whitespace
alone is also stripped), removing the maximal such separator run, and then
trims surrounding whitespace; an option string that does not begin with a
label letter and a separator is stored unchanged apart from whitespace
trimming. -/
theorem cleanOption_spec (s : String) :
    (startsWithLabel s = false → cleanOption s = jsTrim s)
    ∧ (∀ c c2 rest, s.data = c :: c2 :: rest →
        isLabelLetter c = true → isLabelSep c2 = true →
        cleanOption s = jsTrim (((c2 :: rest).dropWhile isLabelSep).asString)
        ∧ ∀ d ds, (c2 :: rest).dropWhile isLabelSep = d :: ds →
            isLabelSep d = false) := by
  constructor
  · intro hno
    match hs : s.data with
    | [] => simp [cleanOption, stripLabel, hs]
    | [c] => simp [cleanOption, stripLabel, hs]
    | c :: c2 :: rest =>
      rw [startsWithLabel, hs] at hno
      simp only [Bool.and_eq_false_iff] at hno
      simp only [cleanOption, stripLabel, hs]
      rcases hno with hno | hno <;> simp [hno]
  · intro c c2 rest hs hc hc2
    constructor
    · simp [cleanOption, stripLabel, hs, hc, hc2]
    · intro d ds hd
      exact dropWhile_head_false isLabelSep (c2 :: rest) d ds hd

/-- Witness for `cleanOption_spec`: both branches instantiated, on the
unlabelled option `"plain"` and the labelled option `"B.  foo"`. -/
theorem cleanOption_spec_witness :
    (startsWithLabel "plain" = false ∧ cleanOption "plain" = jsTrim "plain")
      ∧ cleanOption "B.  foo" = "foo" := by
  have h1 := (cleanOption_spec "plain").1 (by decide)
  have h2 := ((cleanOption_spec "B.  foo").2 'B' '.'
    [' ', ' ', 'f', 'o', 'o'] (by decide) (by decide) (by decide)).1
  exact ⟨⟨by decide, h1⟩, h2.trans (by decide)⟩

/-! ## Lemmas about the merge loops -/

theorem mergeInner_cons_mem (seen : List String) (nextId : Nat) (q : Question)
    (rest : List Question) (h : normalizeQText q.question ∈ seen) :
    mergeInner seen nextId (q :: rest) = mergeInner seen nextId rest := by
  simp [mergeInner, h]

theorem mergeInner_cons_not_mem (seen : List String) (nextId : Nat) (q : Question)
    (rest : List Question) (h : normalizeQText q.question ∉ seen) :
    mergeInner seen nextId (q :: rest)
      = ({ q with questionId := nextId }
            :: (mergeInner (normalizeQText q.question :: seen) (nextId + 1) rest).1,
         (mergeInner (normalizeQText q.question :: seen) (nextId + 1) rest).2) := by
  simp [mergeInner, h]

theorem mergeInner_append (xs : List Question) : ∀ (seen : List String)
    (nextId : Nat) (ys : List Question),
    mergeInner seen nextId (xs ++ ys)
      = ((mergeInner seen nextId xs).1
            ++ (mergeInner (mergeInner seen nextId xs).2.1
                  (mergeInner seen nextId xs).2.2 ys).1,
         (mergeInner (mergeInner seen nextId xs).2.1
            (mergeInner seen nextId xs).2.2 ys).2) := by
  induction xs with
  | nil => intro seen nextId ys; simp [mergeInner]
  | cons q rest ih =>
    intro seen nextId ys
    by_cases h : normalizeQText q.question ∈ seen
    · simp [mergeInner, h, ih]
    · simp [mergeInner, h, ih]

theorem mergeOuter_eq_join (cs : List (List Question)) :
    ∀ (seen : List String) (nextId : Nat),
      mergeOuter seen nextId cs = (mergeInner seen nextId cs.flatten).1 := by
  induction cs with
  | nil => intro seen nextId; simp [mergeOuter, mergeInner]
  | cons c cs ih =>
    intro seen nextId
    simp [mergeOuter, mergeInner_append, ih]

theorem mergeInner_ids (l : List Question) : ∀ (seen : List String) (nextId : Nat),
    (mergeInner seen nextId l).1.map Question.questionId
      = List.range' nextId (mergeInner seen nextId l).1.length := by
  induction l with
  | nil => intro seen nextId; simp [mergeInner]
  | cons q rest ih =>
    intro seen nextId
    by_cases h : normalizeQText q.question ∈ seen
    · simp [mergeInner, h, ih]
    · simp [mergeInner, h, ih, List.range'_succ]

theorem mergeInner_filter_of_mem (t : String) (l : List Question) :
    ∀ (seen : List String) (nextId : Nat), t ∈ seen →
      (mergeInner seen nextId l).1.filter (fun q => qKey q == t) = [] := by
  induction l with
  | nil => intro seen nextId _; simp [mergeInner]
  | cons q rest ih =>
    intro seen nextId ht
    by_cases h : normalizeQText q.question ∈ seen
    · simp only [mergeInner, h, if_pos]
      exact ih seen nextId ht
    · have hne : (qKey { q with questionId := nextId } == t) = false := by
        simp only [qKey, normalizeQText, beq_eq_false_iff_ne, ne_eq]
        intro he
        exact h (by simpa [normalizeQText] using he ▸ ht)
      simp only [mergeInner, h, if_neg, List.filter_cons, hne, Bool.false_eq_true,
        if_false]
      exact ih _ _ (List.mem_cons_of_mem _ ht)

theorem mergeInner_filter_of_not_mem (t : String) (l : List Question) :
    ∀ (seen : List String) (nextId : Nat), t ∉ seen →
      ((mergeInner seen nextId l).1.filter (fun q => qKey q == t)).map eraseId
        = ((l.filter (fun q => qKey q == t)).map eraseId).take 1 := by
  induction l with
  | nil => intro seen nextId _; simp [mergeInner]
  | cons q rest ih =>
    intro seen nextId ht
    by_cases h : normalizeQText q.question ∈ seen
    · have hne : (qKey q == t) = false := by
        simp only [qKey, beq_eq_false_iff_ne, ne_eq]
        intro he
        exact ht (he ▸ h)
      have hne' : (qKey { q with questionId := nextId } == t) = false := hne
      simp only [mergeInner, h, if_pos, List.filter_cons, hne, Bool.false_eq_true,
        if_false]
      exact ih seen nextId ht
    · by_cases hqt : qKey q = t
      · have hpos : (qKey { q with questionId := nextId } == t) = true := by
          simpa [qKey] using hqt
        have hpos' : (qKey q == t) = true := by simpa [qKey] using hqt
        have hrest : (mergeInner (normalizeQText q.question :: seen) (nextId + 1)
            rest).1.filter (fun q => qKey q == t) = [] := by
          apply mergeInner_filter_of_mem
          exact hqt ▸ List.mem_cons_self _ _
        simp [mergeInner, h, List.filter_cons, hpos, hpos', hrest, eraseId]
      · have hne : (qKey q == t) = false := by simpa [qKey] using hqt
        have hne' : (qKey { q with questionId := nextId } == t) = false := hne
        have ht' : t ∉ normalizeQText q.question :: seen := by
          intro hmem
          rcases List.mem_cons.mp hmem with he | he
          · exact hqt (by simpa [qKey] using he.symm)
          · exact ht he
        simp only [mergeInner, h, if_neg, List.filter_cons, hne, hne',
          Bool.false_eq_true, if_false]
        exact ih _ _ ht'

theorem mergeInner_key_nodup (l : List Question) :
    ∀ (seen : List String) (nextId : Nat),
      ((mergeInner seen nextId l).1.map qKey).Nodup
      ∧ ∀ t ∈ seen, t ∉ (mergeInner seen nextId l).1.map qKey := by
  induction l with
  | nil => intro seen nextId; simp [mergeInner]
  | cons q rest ih =>
    intro seen nextId
    by_cases h : normalizeQText q.question ∈ seen
    · rw [mergeInner_cons_mem seen nextId q rest h]
      exact ih seen nextId
    · rw [mergeInner_cons_not_mem seen nextId q rest h]
      obtain ⟨hnd, hdis⟩ := ih (normalizeQText q.question :: seen) (nextId + 1)
      have hkey : qKey { q with questionId := nextId } = normalizeQText q.question := rfl
      constructor
      · rw [List.map_cons, List.nodup_cons, hkey]
        exact ⟨hdis _ (List.mem_cons_self _ _), hnd⟩
      · intro t ht
        rw [List.map_cons, List.mem_cons, hkey]
        rintro (rfl | hmem)
        · exact h ht
        · exact hdis t (List.mem_cons_of_mem _ ht) hmem

theorem mergeInner_getElem (l : List Question) :
    ∀ (seen : List String) (nextId i : Nat)
      (h : i < (mergeInner seen nextId l).1.length),
      ∃ q ∈ l, (mergeInner seen nextId l).1[i] = { q with questionId := nextId + i } := by
  induction l with
  | nil => intro seen nextId i h; simp [mergeInner] at h
  | cons q rest ih =>
    intro seen nextId i h
    by_cases hm : normalizeQText q.question ∈ seen
    · have hstep : (mergeInner seen nextId (q :: rest)).1
          = (mergeInner seen nextId rest).1 := by
        rw [mergeInner_cons_mem seen nextId q rest hm]
      have h' : i < (mergeInner seen nextId rest).1.length := by
        rw [← hstep]; exact h
      have hget := List.getElem_of_eq hstep h
      obtain ⟨q0, hq0, he⟩ := ih seen nextId i h'
      exact ⟨q0, List.mem_cons_of_mem _ hq0, hget.trans he⟩
    · have hstep : (mergeInner seen nextId (q :: rest)).1
          = { q with questionId := nextId }
              :: (mergeInner (normalizeQText q.question :: seen) (nextId + 1) rest).1 := by
        rw [mergeInner_cons_not_mem seen nextId q rest hm]
      have h2 : i < ({ q with questionId := nextId }
          :: (mergeInner (normalizeQText q.question :: seen)
                (nextId + 1) rest).1).length := by
        rw [← hstep]; exact h
      have hget := List.getElem_of_eq hstep h
      cases i with
      | zero =>
        refine ⟨q, List.mem_cons_self _ _, ?_⟩
        rw [hget, List.getElem_cons_zero]
        simp
      | succ i =>
        have h' : i < (mergeInner (normalizeQText q.question :: seen)
            (nextId + 1) rest).1.length := by
          have := h2
          simpa using this
        obtain ⟨q0, hq0, he⟩ := ih _ (nextId + 1) i h'
        refine ⟨q0, List.mem_cons_of_mem _ hq0, ?_⟩
        rw [hget, List.getElem_cons_succ, he]
        have harith : nextId + 1 + i = nextId + (i + 1) := by omega
        rw [harith]

/-- Claim C1: In the multi-chunk path of `generateQuiz`, merging followed by
trimming returns at most `requestedQuestionCount` questions whenever the
requested count is non-negative, and the `questionId` values of the returned
list are exactly the contiguous integers `1, 2, ..., k` in list order, where
`k` is the returned length. -/
theorem mergeAndTrim_le_and_ids (chunkQuizzes : List (List Question)) (n : Int)
    (hn : 0 ≤ n) :
    ((mergeAndTrim chunkQuizzes n).length : Int) ≤ n
    ∧ (mergeAndTrim chunkQuizzes n).map Question.questionId
        = List.range' 1 (mergeAndTrim chunkQuizzes n).length := by
  have hids : (mergeChunkQuizzes chunkQuizzes).map Question.questionId
      = List.range' 1 (mergeChunkQuizzes chunkQuizzes).length := by
    rw [mergeChunkQuizzes, mergeOuter_eq_join]
    exact mergeInner_ids _ _ _
  by_cases hlen : ((mergeChunkQuizzes chunkQuizzes).length : Int) > n
  · have hslice : jsSliceTo (mergeChunkQuizzes chunkQuizzes) n
        = (mergeChunkQuizzes chunkQuizzes).take n.toNat := by
      rw [jsSliceTo, if_neg (by omega)]
    have hmt : mergeAndTrim chunkQuizzes n
        = (mergeChunkQuizzes chunkQuizzes).take n.toNat := by
      simp only [mergeAndTrim, if_pos hlen, hslice]
    constructor
    · rw [hmt, List.length_take]
      omega
    · rw [hmt, List.map_take, hids,
        take_range' (mergeChunkQuizzes chunkQuizzes).length 1 n.toNat,
        List.length_take]
  · push_neg at hlen
    have hmt : mergeAndTrim chunkQuizzes n = mergeChunkQuizzes chunkQuizzes := by
      simp only [mergeAndTrim, if_neg (not_lt.mpr hlen)]
    rw [hmt]
    exact ⟨hlen, hids⟩

/-- Witness for `mergeAndTrim_le_and_ids`: three questions across two chunks
(one a case-variant duplicate), trimmed to a requested count of 2. -/
theorem mergeAndTrim_le_and_ids_witness :
    (0 : Int) ≤ 2
    ∧ (((mergeAndTrim [[⟨7, "What is X?", ["a", "b", "c", "d"], some "A", "t"⟩],
          [⟨4, "  what is x?", ["a", "b", "c", "d"], some "B", "t"⟩,
           ⟨5, "Other?", ["a", "b", "c", "d"], some "C", "t"⟩,
           ⟨6, "Third?", ["a", "b", "c", "d"], some "D", "t"⟩]] 2).length : Int) ≤ 2
        ∧ (mergeAndTrim [[⟨7, "What is X?", ["a", "b", "c", "d"], some "A", "t"⟩],
            [⟨4, "  what is x?", ["a", "b", "c", "d"], some "B", "t"⟩,
             ⟨5, "Other?", ["a", "b", "c", "d"], some "C", "t"⟩,
             ⟨6, "Third?", ["a", "b", "c", "d"], some "D", "t"⟩]] 2).map Question.questionId
          = List.range' 1 (mergeAndTrim [[⟨7, "What is X?", ["a", "b", "c", "d"], some "A", "t"⟩],
              [⟨4, "  what is x?", ["a", "b", "c", "d"], some "B", "t"⟩,
               ⟨5, "Other?", ["a", "b", "c", "d"], some "C", "t"⟩,
               ⟨6, "Third?", ["a", "b", "c", "d"], some "D", "t"⟩]] 2).length) :=
  ⟨by decide,
    mergeAndTrim_le_and_ids
      [[⟨7, "What is X?", ["a", "b", "c", "d"], some "A", "t"⟩],
       [⟨4, "  what is x?", ["a", "b", "c", "d"], some "B", "t"⟩,
        ⟨5, "Other?", ["a", "b", "c", "d"], some "C", "t"⟩,
        ⟨6, "Third?", ["a", "b", "c", "d"], some "D", "t"⟩]] 2 (by decide)⟩

/-- Claim C2: No two entries of `mergeChunkQuizzes`' output share the same
normalized question text, and for every normalized text `t` the output's
entries with key `t`, ignoring the rewritten `questionId`, are exactly the
first input occurrence with key `t` in chunk-index order and then chunk-local
position order (both sides empty when `t` never occurs). -/
theorem mergeChunkQuizzes_dedup_first (chunkQuizzes : List (List Question)) :
    ((mergeChunkQuizzes chunkQuizzes).map qKey).Nodup
    ∧ ∀ t : String,
        ((mergeChunkQuizzes chunkQuizzes).filter (fun q => qKey q == t)).map eraseId
          = ((chunkQuizzes.flatten.filter (fun q => qKey q == t)).map eraseId).take 1 := by
  constructor
  · rw [mergeChunkQuizzes, mergeOuter_eq_join]
    exact (mergeInner_key_nodup _ _ _).1
  · intro t
    rw [mergeChunkQuizzes, mergeOuter_eq_join]
    exact mergeInner_filter_of_not_mem t _ [] 1 (List.not_mem_nil t)

/-- Witness for `mergeChunkQuizzes_dedup_first` on a two-chunk input with a
case-variant duplicate, instantiated at the key of the duplicated question. -/
theorem mergeChunkQuizzes_dedup_first_witness :
    ((mergeChunkQuizzes [[⟨1, "Q one?", ["w"], some "A", "T"⟩],
        [⟨1, " q ONE? ", ["w"], some "B", "T"⟩,
         ⟨2, "Q two?", ["w"], some "C", "T"⟩]]).map qKey).Nodup
    ∧ ((mergeChunkQuizzes [[⟨1, "Q one?", ["w"], some "A", "T"⟩],
          [⟨1, " q ONE? ", ["w"], some "B", "T"⟩,
           ⟨2, "Q two?", ["w"], some "C", "T"⟩]]).filter
            (fun q => qKey q == "q one?")).map eraseId
        = ((([[⟨1, "Q one?", ["w"], some "A", "T"⟩],
            [⟨1, " q ONE? ", ["w"], some "B", "T"⟩,
             ⟨2, "Q two?", ["w"], some "C", "T"⟩]] :
              List (List Question)).flatten.filter
            (fun q => qKey q == "q one?")).map eraseId).take 1 :=
  ⟨(mergeChunkQuizzes_dedup_first [[⟨1, "Q one?", ["w"], some "A", "T"⟩],
      [⟨1, " q ONE? ", ["w"], some "B", "T"⟩,
       ⟨2, "Q two?", ["w"], some "C", "T"⟩]]).1,
    (mergeChunkQuizzes_dedup_first [[⟨1, "Q one?", ["w"], some "A", "T"⟩],
      [⟨1, " q ONE? ", ["w"], some "B", "T"⟩,
       ⟨2, "Q two?", ["w"], some "C", "T"⟩]]).2 "q one?"⟩

/-- Claim C10: Every entry of `mergeChunkQuizzes`' output is an input question
with all fields (question text, options, correct_answer, topic) unchanged,
except `questionId`, which is overwritten with the freshly assigned
sequential identifier `i + 1` at output position `i`. -/
theorem mergeChunkQuizzes_preserves_fields (chunkQuizzes : List (List Question))
    (i : Nat) (h : i < (mergeChunkQuizzes chunkQuizzes).length) :
    ∃ q ∈ chunkQuizzes.flatten,
      (mergeChunkQuizzes chunkQuizzes)[i] = { q with questionId := i + 1 } := by
  have hkey : mergeChunkQuizzes chunkQuizzes
      = (mergeInner [] 1 chunkQuizzes.flatten).1 := by
    rw [mergeChunkQuizzes, mergeOuter_eq_join]
  have h2 : i < (mergeInner [] 1 chunkQuizzes.flatten).1.length := by
    rw [← hkey]; exact h
  have hget : (mergeChunkQuizzes chunkQuizzes)[i]
      = (mergeInner [] 1 chunkQuizzes.flatten).1[i] := List.getElem_of_eq hkey h
  obtain ⟨q, hq, he⟩ := mergeInner_getElem chunkQuizzes.flatten [] 1 i h2
  refine ⟨q, hq, ?_⟩
  rw [hget, he]
  have : 1 + i = i + 1 := by omega
  rw [this]

/-- Witness for `mergeChunkQuizzes_preserves_fields` at output position 0 of
a two-chunk input. -/
theorem mergeChunkQuizzes_preserves_fields_witness :
    0 < (mergeChunkQuizzes [[⟨9, "Q one?", ["w", "x", "y", "z"], some "A", "T1"⟩],
          [⟨3, "Q two?", ["w", "x", "y", "z"], some "B", "T2"⟩]]).length
    ∧ ∃ q ∈ ([[⟨9, "Q one?", ["w", "x", "y", "z"], some "A", "T1"⟩],
          [⟨3, "Q two?", ["w", "x", "y", "z"], some "B", "T2"⟩]] :
            List (List Question)).flatten,
        (mergeChunkQuizzes [[⟨9, "Q one?", ["w", "x", "y", "z"], some "A", "T1"⟩],
          [⟨3, "Q two?", ["w", "x", "y", "z"], some "B", "T2"⟩]]).get ⟨0, by decide⟩
          = { q with questionId := 0 + 1 } :=
  ⟨by decide,
    mergeChunkQuizzes_preserves_fields
      [[⟨9, "Q one?", ["w", "x", "y", "z"], some "A", "T1"⟩],
       [⟨3, "Q two?", ["w", "x", "y", "z"], some "B", "T2"⟩]] 0 (by decide)⟩

/-! ## Chunk generator: quota and failure behaviour -/

/-- Claim C4 counterexample: With a per-chunk quota of 1, a raw model output
that parses to two questions yields two normalized questions: the chunk
generator performs no truncation to its quota. -/
theorem generateQuizFromChunk_no_truncation_cex :
    ¬ ((generateQuizFromChunk
        (.parsedStrict [⟨"Q1?", ["a", "b", "c", "d"], some "A", none, none⟩,
                        ⟨"Q2?", ["a", "b", "c", "d"], some "B", none, none⟩])
        "chunk text" 1 "medium" "Title" 0).length ≤ 1) := by
  decide

/-- Claim C4, amended: The question list returned by `generateQuizFromChunk`
has exactly one entry per question in the parsed raw output, regardless of
the chunk's quota: the normalizing `map` preserves length and no truncation
to `numQuestions` takes place (a failed call or failed parse yields length
0). -/
theorem generateQuizFromChunk_length (resp : ModelResponse) (chunkText : String)
    (numQuestions : Int) (difficulty videoTitle : String) (chunkIndex : Nat) :
    (generateQuizFromChunk resp chunkText numQuestions difficulty
        videoTitle chunkIndex).length = parsedCount resp := by
  cases resp <;> simp [generateQuizFromChunk, parsedCount]

/-- Witness for `generateQuizFromChunk_length` on a fallback-parsed output of
one raw question under a quota of 5. -/
theorem generateQuizFromChunk_length_witness :
    (generateQuizFromChunk
        (.parsedFallback [⟨"Q?", ["a", "b", "c", "d"], none, some "C", some "Topic"⟩])
        "c" 5 "hard" "T" 2).length
      = parsedCount
          (.parsedFallback [⟨"Q?", ["a", "b", "c", "d"], none, some "C", some "Topic"⟩]) :=
  generateQuizFromChunk_length
    (.parsedFallback [⟨"Q?", ["a", "b", "c", "d"], none, some "C", some "Topic"⟩])
    "c" 5 "hard" "T" 2

/-- Claim C5 counterexample: A top-level `generateQuiz` call with requested
count `-1` is not rejected: chunk generation runs and its questions are
returned as an ordinary result. -/
theorem generateQuiz_negative_count_cex :
    generateQuiz
        (fun _ => .parsedStrict
          [⟨"Q?", ["Apple", "Bat", "Cat", "Dog"], some "A", none, none⟩])
        "a short transcript" (-1) "medium" "T"
      = [⟨1, "Q?", ["Apple", "Bat", "Cat", "Dog"], some "A", "General"⟩]
    ∧ ([⟨1, "Q?", ["Apple", "Bat", "Cat", "Dog"], some "A", "General"⟩]
        : List Question) ≠ [] := by
  exact ⟨rfl, by decide⟩

/-- Claim C5, amended: `generateQuiz` performs no validation of the requested
question count: a negative count is not rejected before chunk work, and the
top-level call never fails of its own — on the short-transcript path the
call proceeds straight into chunk generation and returns the chunk
generator's result unchanged. -/
theorem generateQuiz_no_validation (respOf : Nat → ModelResponse)
    (transcript : String) (numQuestions : Int) (difficulty title : String)
    (hneg : numQuestions < 0) (hshort : transcript.length < 5000) :
    generateQuiz respOf transcript numQuestions difficulty title
      = generateQuizFromChunk (respOf 0) transcript numQuestions difficulty title 0 := by
  have hopt : calculateOptimalChunks transcript.length = 1 := by
    rw [calculateOptimalChunks, if_pos hshort]
  simp [generateQuiz, hopt]

/-- Witness for `generateQuiz_no_validation` at requested count `-2` on the
transcript `"hi"`. -/
theorem generateQuiz_no_validation_witness :
    (-2 : Int) < 0 ∧ ("hi" : String).length < 5000
    ∧ generateQuiz (fun _ => ModelResponse.throwsError) "hi" (-2) "easy" "T"
        = generateQuizFromChunk ModelResponse.throwsError "hi" (-2) "easy" "T" 0 :=
  ⟨by decide, by decide,
    generateQuiz_no_validation (fun _ => ModelResponse.throwsError) "hi" (-2)
      "easy" "T" (by decide) (by decide)⟩

/-- Claim C6: A chunk whose external call threw, or whose raw output failed
both the strict parse and the bracketed-substring fallback, yields the empty
question list instead of an exception; and the per-chunk results of the
fan-out stage are independent: changing the outcome of chunk `i` leaves the
result at every other index unchanged. -/
theorem generateQuizFromChunk_failure_isolated (chunkText : String)
    (numQuestions : Int) (difficulty videoTitle : String) (chunkIndex : Nat) :
    generateQuizFromChunk .throwsError chunkText numQuestions difficulty
        videoTitle chunkIndex = []
    ∧ generateQuizFromChunk .unparseable chunkText numQuestions difficulty
        videoTitle chunkIndex = []
    ∧ ∀ (respOf respOf' : Nat → ModelResponse) (chunks : List String)
        (quotas : List Int) (i : Nat),
        (∀ j, j ≠ i → respOf j = respOf' j) →
        ∀ j, j ≠ i →
          (chunkQuizzesOf respOf chunks quotas difficulty videoTitle).get? j
            = (chunkQuizzesOf respOf' chunks quotas difficulty videoTitle).get? j := by
  refine ⟨rfl, rfl, ?_⟩
  intro respOf respOf' chunks quotas i hagree j hji
  cases hc : chunks[j]? with
  | none => simp [chunkQuizzesOf, List.get?_map, List.enum_get?, hc]
  | some c => simp [chunkQuizzesOf, List.get?_map, List.enum_get?, hc, hagree j hji]

/-- Witness for `generateQuizFromChunk_failure_isolated`: the two failure
outcomes produce `[]`, and flipping chunk 1's outcome from a parse failure to
a thrown call leaves chunk 0's result unchanged. -/
theorem generateQuizFromChunk_failure_isolated_witness :
    generateQuizFromChunk .throwsError "c" 3 "medium" "T" 0 = []
    ∧ generateQuizFromChunk .unparseable "c" 3 "medium" "T" 0 = []
    ∧ (chunkQuizzesOf (fun _ => ModelResponse.unparseable)
          ["x", "y"] [1, 2] "medium" "T").get? 0
        = (chunkQuizzesOf
            (fun j => if j = 1 then ModelResponse.throwsError
              else ModelResponse.unparseable)
            ["x", "y"] [1, 2] "medium" "T").get? 0 := by
  obtain ⟨h1, h2, h3⟩ := generateQuizFromChunk_failure_isolated "c" 3 "medium" "T" 0
  refine ⟨h1, h2, ?_⟩
  exact h3 (fun _ => ModelResponse.unparseable)
    (fun j => if j = 1 then ModelResponse.throwsError else ModelResponse.unparseable)
    ["x", "y"] [1, 2] 1 (fun j hj => by simp [hj]) 0 (by decide)

/-! ## Content cache: hit/miss bookkeeping -/

theorem find?_replaceFirst {α : Type} (p : α → Bool) (x : α) :
    ∀ (l : List α) (e : α), l.find? p = some e → p x = true →
      (replaceFirst p x l).find? p = some x := by
  intro l
  induction l with
  | nil => intro e he _; simp at he
  | cons a as ih =>
    intro e he hx
    by_cases hpa : p a = true
    · rw [replaceFirst, if_pos hpa]
      exact List.find?_cons_of_pos as hx
    · rw [replaceFirst, if_neg hpa]
      rw [List.find?_cons_of_neg as (by simpa using hpa)] at he
      rw [List.find?_cons_of_neg (replaceFirst p x as) (by simpa using hpa)]
      exact ih e he hx

/-- Claim C9: A cache hit returns the stored record with its access counter
incremented by exactly 1 and its last-accessed timestamp refreshed to the
lookup time, with every other field unchanged, and persists that update to
the store; a miss returns nothing and leaves the store untouched. -/
theorem cacheLookup_spec (now : Nat) (cache : CacheState) (vid : String) :
    (∀ e, cacheFindOne cache vid = some e →
        (cacheLookup now cache vid).1 = some (updateAccess now e)
        ∧ (updateAccess now e).accessCount = e.accessCount + 1
        ∧ (updateAccess now e).lastAccessed = now
        ∧ eraseAccess (updateAccess now e) = eraseAccess e
        ∧ cacheFindOne (cacheLookup now cache vid).2 vid = some (updateAccess now e))
    ∧ (cacheFindOne cache vid = none → cacheLookup now cache vid = (none, cache)) := by
  constructor
  · intro e he
    have he' : cache.find? (fun r => r.videoId == vid) = some e := he
    have hp : ((updateAccess now e).videoId == vid) = true := by
      have := List.find?_some he'
      simpa [updateAccess] using this
    refine ⟨?_, rfl, rfl, rfl, ?_⟩
    · simp [cacheLookup, he]
    · have h2 : (cacheLookup now cache vid).2
          = replaceFirst (fun r => r.videoId == vid) (updateAccess now e) cache := by
        simp [cacheLookup, he]
      rw [h2, cacheFindOne]
      exact find?_replaceFirst _ _ cache e he' hp
  · intro h
    simp [cacheLookup, h]

/-- Witness for `cacheLookup_spec`: a one-entry store hit at time 42. -/
theorem cacheLookup_spec_witness :
    cacheFindOne [⟨"v1", "T", "d", "ch", "PT1M", 1, "tr", 2, 0, 10, 10, 1⟩] "v1"
        = some ⟨"v1", "T", "d", "ch", "PT1M", 1, "tr", 2, 0, 10, 10, 1⟩
    ∧ ((cacheLookup 42 [⟨"v1", "T", "d", "ch", "PT1M", 1, "tr", 2, 0, 10, 10, 1⟩] "v1").1
          = some (updateAccess 42 ⟨"v1", "T", "d", "ch", "PT1M", 1, "tr", 2, 0, 10, 10, 1⟩)
        ∧ (updateAccess 42 ⟨"v1", "T", "d", "ch", "PT1M", 1, "tr", 2, 0, 10, 10, 1⟩).accessCount
            = (⟨"v1", "T", "d", "ch", "PT1M", 1, "tr", 2, 0, 10, 10, 1⟩
                : TranscriptCacheEntry).accessCount + 1
        ∧ (updateAccess 42 ⟨"v1", "T", "d", "ch", "PT1M", 1, "tr", 2, 0, 10, 10, 1⟩).lastAccessed = 42
        ∧ eraseAccess (updateAccess 42 ⟨"v1", "T", "d", "ch", "PT1M", 1, "tr", 2, 0, 10, 10, 1⟩)
            = eraseAccess ⟨"v1", "T", "d", "ch", "PT1M", 1, "tr", 2, 0, 10, 10, 1⟩
        ∧ cacheFindOne
            (cacheLookup 42 [⟨"v1", "T", "d", "ch", "PT1M", 1, "tr", 2, 0, 10, 10, 1⟩] "v1").2 "v1"
            = some (updateAccess 42 ⟨"v1", "T", "d", "ch", "PT1M", 1, "tr", 2, 0, 10, 10, 1⟩)) :=
  ⟨by decide,
    (cacheLookup_spec 42 [⟨"v1", "T", "d", "ch", "PT1M", 1, "tr", 2, 0, 10, 10, 1⟩] "v1").1
      ⟨"v1", "T", "d", "ch", "PT1M", 1, "tr", 2, 0, 10, 10, 1⟩ (by decide)⟩

end MCQ
